import Mathlib

/-!
# WeighMyBru² release sync worker

A shallow embedding of `website/cloudflare-worker.js`: the webhook handler that mirrors the
assets of a published release into the KV namespace `env.RELEASES`, the read API over
that namespace, and the signature helper.

What the worker gets from its host is not code of the worker and is taken as data or as a
parameter:

* the KV namespace is an association list of entries, together with, for each operation,
  whether the call throws (`getError`, `putError`, `listError`);
* the global `fetch`, `JSON.parse` applied to the request body, `String.prototype.localeCompare`
  and the HMAC-SHA256 of `crypto.subtle` are function parameters.

The calls the worker makes that act on the outside (`fetch` and `put`) are recorded, in order,
as a list of `Effect`s.
-/

namespace WeighMyBru

/-! ## Data -/

/-- One element of a `Uint8Array`. -/
abbrev Byte := Fin 256

/-- The content of an `ArrayBuffer`; its `byteLength` is the length of the list. -/
abbrev Bytes := List Byte

/-- An asset of the webhook payload (`release.assets[i]`), with the two fields the worker reads. -/
structure Asset where
  name : String
  browser_download_url : String
deriving DecidableEq, Repr

/-- The `release` object of the webhook payload. The fields that are only copied may be null. -/
structure Release where
  tag_name : String
  name : Option String
  body : Option String
  published_at : Option String
  html_url : Option String
  assets : List Asset
deriving DecidableEq, Repr

/-- The parsed webhook payload: `action` and `release` (`none` when missing or null). -/
structure Payload where
  action : Option String
  release : Option Release
deriving DecidableEq, Repr

/-- An element of `assets` as built by `syncReleaseToKV`: `{name, size, kvKey}`. -/
structure AssetEntry where
  name : String
  size : Nat
  kvKey : String
deriving DecidableEq, Repr

/-- The object `releaseData` of `syncReleaseToKV`, in the order of its fields. -/
structure ReleaseData where
  tag_name : String
  name : Option String
  body : Option String
  published_at : Option String
  assets : List AssetEntry
  html_url : Option String
deriving DecidableEq, Repr

/-- A value held by the KV namespace. The worker writes three kinds: the `ArrayBuffer` of a
download, the string `JSON.stringify(releaseData)` (kept as the record it serialises, which
is what a read of type `'json'` gives back), and a plain string (the tag under `latest`). -/
inductive Value where
  | buffer (content : Bytes)
  | json (releaseData : ReleaseData)
  | text (s : String)
deriving DecidableEq, Repr

/-- A call of the worker that acts on the outside: `fetch(url)` or `env.RELEASES.put(key, value)`. -/
inductive Effect where
  | fetch (url : String)
  | put (key : String) (value : Value)
deriving DecidableEq, Repr

/-- The response of `fetch`: its status and what `arrayBuffer()` gives (or throws). -/
structure FetchResponse where
  status : Nat
  arrayBuffer : Except String Bytes

/-- The getter `response.ok`: the status is in the range 200-299. -/
def FetchResponse.ok (response : FetchResponse) : Bool :=
  decide (200 ≤ response.status) && decide (response.status ≤ 299)

/-! ## The KV namespace -/

/-- The value stored under `key`, if any. -/
def lookupEntry (key : String) : List (String × Value) → Option Value
  | [] => none
  | (k, v) :: rest => if k = key then some v else lookupEntry key rest

/-- The entries after `value` is stored under `key`: an existing entry is overwritten in
place, a new one is added at the end. -/
def putEntry (key : String) (value : Value) : List (String × Value) → List (String × Value)
  | [] => [(key, value)]
  | (k, v) :: rest => if k = key then (key, value) :: rest else (k, v) :: putEntry key value rest

/-- The KV namespace bound as `env.RELEASES`: its entries and, per operation, the message of
the error the call throws, if it throws. -/
structure KVNamespace where
  entries : List (String × Value)
  getError : String → Option String
  putError : String → Option String
  listError : Option String

/-- The call `env.RELEASES.put(key, value)`: the namespace after the write, or the error thrown
(the namespace is then as before). -/
def KVNamespace.put (kv : KVNamespace) (key : String) (value : Value) : Except String KVNamespace :=
  match kv.putError key with
  | some e => .error e
  | none => .ok { kv with entries := putEntry key value kv.entries }

/-- The call `env.RELEASES.get(key)`: the stored string, `none` (null) when the key is absent.
The worker reads only `latest` this way, which it writes as a plain string; reading a value
of another kind is outside what the model resolves and counts as a failed read. -/
def KVNamespace.get (kv : KVNamespace) (key : String) : Except String (Option String) :=
  match kv.getError key with
  | some e => .error e
  | none =>
    match lookupEntry key kv.entries with
    | none => .ok none
    | some (.text s) => .ok (some s)
    | some _ => .error "value is not a plain string"

/-- The call `env.RELEASES.get(key, 'json')`: the parsed record, `none` (null) when the key is
absent; a value that is not JSON text makes the parse throw. -/
def KVNamespace.getJson (kv : KVNamespace) (key : String) : Except String (Option ReleaseData) :=
  match kv.getError key with
  | some e => .error e
  | none =>
    match lookupEntry key kv.entries with
    | none => .ok none
    | some (.json r) => .ok (some r)
    | some _ => .error "value is not valid JSON"

/-- The call `env.RELEASES.list()`, reduced to the `name` of each element of `keys`. All
the keys are taken to come back in one call, in the order of the entries. -/
def KVNamespace.list (kv : KVNamespace) : Except String (List String) :=
  match kv.listError with
  | some e => .error e
  | none => .ok (kv.entries.map Prod.fst)

/-- The bindings of the worker: the namespace `RELEASES` and the shared secret of the
deployment, if one is configured (no function of the worker reads it). -/
structure Env where
  RELEASES : KVNamespace
  secret : Option String

/-! ## Responses -/

/-- The body of a `Response`: a plain string, or the object given to `JSON.stringify`. -/
inductive Body where
  | text (s : String)
  | syncSuccess (message : String) (assets : Nat)
  | syncFailure (error : String)
  | releases (releases : List String) (latest : Option String) (count : Nat)
  | release (releaseData : ReleaseData)
  | error (error : String)
deriving DecidableEq, Repr

/-- A `Response`: body, status (200 when not given) and the `Content-Type` header given. -/
structure Response where
  body : Body
  status : Nat
  contentType : Option String
deriving DecidableEq, Repr

/-- A response `new Response(JSON.stringify(body), { status, headers: json })`. -/
def jsonResponse (body : Body) (status : Nat) : Response :=
  ⟨body, status, some "application/json"⟩

/-! ## syncReleaseToKV -/

/-- The template literal `asset:${tagName}:${assetName}`. -/
def assetKey (tagName assetName : String) : String :=
  "asset:" ++ tagName ++ ":" ++ assetName

/-- The template literal `release:${tagName}`. -/
def releaseKey (tagName : String) : String :=
  "release:" ++ tagName

/-- The loop `for (const asset of release.assets)` of `syncReleaseToKV`, from the assets still
to process, the array `assets` built so far and the namespace: the final `assets` or the
message of the error thrown, the namespace, and the calls made. -/
def syncAssets (fetch : String → Except String FetchResponse) (tagName : String) :
    List Asset → List AssetEntry → KVNamespace →
      Except String (List AssetEntry) × KVNamespace × List Effect
  | [], assets, kv => (.ok assets, kv, [])
  | asset :: rest, assets, kv =>
    let assetName := asset.name
    let downloadUrl := asset.browser_download_url
    match fetch downloadUrl with
    | .error e => (.error e, kv, [.fetch downloadUrl])
    | .ok response =>
      if !response.ok then
        (.error ("Failed to download " ++ assetName ++ ": " ++ toString response.status), kv,
          [.fetch downloadUrl])
      else
        match response.arrayBuffer with
        | .error e => (.error e, kv, [.fetch downloadUrl])
        | .ok content =>
          let kvKey := assetKey tagName assetName
          match kv.put kvKey (.buffer content) with
          | .error e => (.error e, kv, [.fetch downloadUrl, .put kvKey (.buffer content)])
          | .ok kv1 =>
            let r := syncAssets fetch tagName rest
              (assets ++ [{ name := assetName, size := content.length, kvKey := kvKey }]) kv1
            (r.1, r.2.1, .fetch downloadUrl :: .put kvKey (.buffer content) :: r.2.2)

/-- The object returned by `syncReleaseToKV`: `{success: true, assets, version}` or
`{success: false, error}`. -/
inductive SyncResult where
  | success (assets : Nat) (version : String)
  | failure (error : String)
deriving DecidableEq, Repr

/-- The function `syncReleaseToKV(release, env)`: its result, the namespace afterwards and the
calls made. Every error thrown inside is caught and returned as a failure. -/
def syncReleaseToKV (fetch : String → Except String FetchResponse) (release : Release)
    (kv : KVNamespace) : SyncResult × KVNamespace × List Effect :=
  let tagName := release.tag_name
  match syncAssets fetch tagName release.assets [] kv with
  | (.error e, kv1, effects) => (.failure e, kv1, effects)
  | (.ok assets, kv1, effects) =>
    let releaseData : ReleaseData :=
      { tag_name := tagName
        name := release.name
        body := release.body
        published_at := release.published_at
        assets := assets
        html_url := release.html_url }
    let putRelease := Effect.put (releaseKey tagName) (.json releaseData)
    match kv1.put (releaseKey tagName) (.json releaseData) with
    | .error e => (.failure e, kv1, effects ++ [putRelease])
    | .ok kv2 =>
      let putLatest := Effect.put "latest" (.text tagName)
      match kv2.put "latest" (.text tagName) with
      | .error e => (.failure e, kv2, effects ++ [putRelease, putLatest])
      | .ok kv3 => (.success assets.length tagName, kv3, effects ++ [putRelease, putLatest])

/-! ## handleGitHubWebhook -/

/-- The request of the webhook: the header `X-Hub-Signature-256` (`none` when not sent) and
the text of the body. -/
structure Request where
  signature : Option String
  body : String
deriving DecidableEq, Repr

/-- The response `new Response('Event not processed', { status: 200 })`. -/
def eventNotProcessed : Response :=
  ⟨.text "Event not processed", 200, none⟩

/-- The function `handleGitHubWebhook(request, env)`: the response, the bindings afterwards and
the calls made. `parse body` is `JSON.parse(body)` followed by the reads of `payload.action`
and `payload.release`; its error is the message of whatever these throw. -/
def handleGitHubWebhook (parse : String → Except String Payload)
    (fetch : String → Except String FetchResponse) (request : Request) (env : Env) :
    Response × Env × List Effect :=
  let _signature := request.signature
  let body := request.body
  match parse body with
  | .error e => (jsonResponse (.syncFailure e) 500, env, [])
  | .ok payload =>
    match decide (payload.action ≠ some "published"), payload.release with
    | true, _ => (eventNotProcessed, env, [])
    | false, none => (eventNotProcessed, env, [])
    | false, some release =>
      let tagName := release.tag_name
      match syncReleaseToKV fetch release env.RELEASES with
      | (.success assets _, kv, effects) =>
        (jsonResponse (.syncSuccess ("Release " ++ tagName ++ " synced successfully") assets) 200,
          { env with RELEASES := kv }, effects)
      | (.failure error, kv, effects) =>
        (jsonResponse (.syncFailure error) 500, { env with RELEASES := kv }, effects)

/-! ## Strings and arrays of the host language -/

/-- The method `s.startsWith(searchString)`. -/
def startsWith (s searchString : String) : Bool :=
  searchString.data.isPrefixOf s.data

/-- The method `s.replace(pattern, replacement)` for a string pattern, on the characters:
the first occurrence of the pattern is replaced, and a string without one is unchanged. -/
def replaceChars (pattern replacement : List Char) : List Char → List Char
  | [] => if pattern = [] then replacement else []
  | c :: cs =>
    if pattern.isPrefixOf (c :: cs) then replacement ++ (c :: cs).drop pattern.length
    else c :: replaceChars pattern replacement cs

/-- The method `s.replace(pattern, replacement)` for a string pattern. -/
def replace (s pattern replacement : String) : String :=
  ⟨replaceChars pattern.data replacement.data s.data⟩

/-- The method `s.split(separator)` for a one-character separator, on the characters: the
pieces between the separators, the empty ones included. -/
def splitChars (separator : Char) : List Char → List (List Char)
  | [] => [[]]
  | c :: cs =>
    if c = separator then [] :: splitChars separator cs
    else
      match splitChars separator cs with
      | [] => [[c]]
      | piece :: pieces => (c :: piece) :: pieces

/-- The method `s.split(separator)` for a one-character separator. -/
def split (s : String) (separator : Char) : List String :=
  (splitChars separator s.data).map String.mk

/-- One step of the sort: `x` is put before the first element that the comparator does not
order before it. -/
def insertSorted {α : Type} (comparefn : α → α → Int) (x : α) : List α → List α
  | [] => [x]
  | y :: ys => if comparefn x y ≤ 0 then x :: y :: ys else y :: insertSorted comparefn x ys

/-- The method `array.sort(comparefn)`: a stable sort, `a` before `b` when `comparefn(a, b)`
is negative and `b` before `a` when it is positive. -/
def sort {α : Type} (comparefn : α → α → Int) (array : List α) : List α :=
  array.foldr (insertSorted comparefn) []

/-- The expression `value || null` for a string that may be undefined: the empty string is
falsy as well. -/
def orNull : Option String → Option String
  | some s => if s = "" then none else some s
  | none => none

/-! ## The read API -/

/-- The function `getLatestRelease(env)`: the record of the tag under `latest`, or null. An
error thrown by either read is caught and null is returned. -/
def getLatestRelease (env : Env) : Option ReleaseData :=
  match env.RELEASES.get "latest" with
  | .error _ => none
  | .ok latestVersion =>
    match orNull latestVersion with
    | none => none
    | some latestVersion =>
      match env.RELEASES.getJson (releaseKey latestVersion) with
      | .error _ => none
      | .ok release => release

/-- The response of the `catch` of `handleReleaseAPI`: status 500 with `{error: message}`. -/
def serverError (message : String) : Response :=
  jsonResponse (.error message) 500

/-- The response `new Response('Invalid API endpoint', { status: 404 })`. -/
def invalidEndpoint : Response :=
  ⟨.text "Invalid API endpoint", 404, none⟩

/-- The function `handleReleaseAPI(url, env)`, from `url.pathname`. -/
def handleReleaseAPI (localeCompare : String → String → Int) (pathname : String) (env : Env) :
    Response :=
  let pathParts := split pathname '/'
  if pathParts.length = 3 then
    match env.RELEASES.list with
    | .error e => serverError e
    | .ok keys =>
      let releaseList :=
        sort (fun a b => localeCompare b a)
          ((keys.filter (fun name => startsWith name "release:")).map
            (fun name => replace name "release:" ""))
      jsonResponse (.releases releaseList (orNull releaseList.head?) releaseList.length) 200
  else if pathParts.get? 3 = some "latest" then
    match getLatestRelease env with
    | some latest => jsonResponse (.release latest) 200
    | none => jsonResponse (.error "No releases found") 404
  else
    match orNull (pathParts.get? 3) with
    | none => invalidEndpoint
    | some version =>
      match env.RELEASES.getJson (releaseKey version) with
      | .error e => serverError e
      | .ok (some release) => jsonResponse (.release release) 200
      | .ok none => jsonResponse (.error ("Release " ++ version ++ " not found")) 404

/-! ## verifyGitHubSignature -/

/-- The call `b.toString(16).padStart(2, '0')` on a byte. -/
def hexByte (b : Byte) : List Char :=
  let digits := Nat.toDigits 16 b.val
  List.replicate (2 - digits.length) '0' ++ digits

/-- The hexadecimal string of a digest: `Array.from(bytes).map(hex).join('')`. -/
def hexEncode (bytes : Bytes) : String :=
  ⟨(bytes.map hexByte).flatten⟩

/-- The call `new TextEncoder().encode(s)`: the UTF-8 bytes of the string. -/
def encode (s : String) : Bytes :=
  s.data.flatMap (fun c => (String.utf8EncodeChar c).map (fun b => b.val))

/-- Whether a string that may be null or undefined is falsy: absent, or empty. -/
def falsy : Option String → Bool
  | some s => decide (s = "")
  | none => true

/-- The function `verifyGitHubSignature(body, signature, secret)`. `hmacSha256 key message` is
the signature `crypto.subtle.sign('HMAC', key, message)` under the imported raw key. -/
def verifyGitHubSignature (hmacSha256 : Bytes → Bytes → Bytes) (body : String)
    (signature secret : Option String) : Bool :=
  if falsy signature || falsy secret then false
  else
    match signature, secret with
    | some signature, some secret =>
      let computedSignature := hmacSha256 (encode secret) (encode body)
      let computedHex := "sha256=" ++ hexEncode computedSignature
      decide (computedHex = signature)
    | _, _ => false

/-! ## The entry point -/

/-- The request given to the worker: method, `url.pathname`, the signature header and the body. -/
structure IncomingRequest where
  method : String
  pathname : String
  signature : Option String
  body : String
deriving DecidableEq, Repr

/-- The response `new Response('WeighMyBru² Release Sync Service', text/plain)`. -/
def banner : Response :=
  ⟨.text "WeighMyBru² Release Sync Service", 200, some "text/plain"⟩

/-- The method `fetch(request, env)` of the default export: the response, the bindings
afterwards and the calls made. -/
def workerFetch (parse : String → Except String Payload)
    (fetch : String → Except String FetchResponse) (localeCompare : String → String → Int)
    (request : IncomingRequest) (env : Env) : Response × Env × List Effect :=
  if request.pathname = "/webhook/github" ∧ request.method = "POST" then
    handleGitHubWebhook parse fetch ⟨request.signature, request.body⟩ env
  else if startsWith request.pathname "/api/releases" then
    (handleReleaseAPI localeCompare request.pathname env, env, [])
  else
    (banner, env, [])

/-! ## Instances of the host's functions

Concrete functions for the parameters, used to evaluate the worker on closed inputs. -/

/-- A three-way comparison in the order of the characters: negative, zero or positive. -/
def compareCodePoints (a b : String) : Int :=
  if a.data < b.data then -1 else if a = b then 0 else 1

/-- A namespace with no entries in which no call throws. -/
def emptyStore : KVNamespace :=
  { entries := [], getError := fun _ => none, putError := fun _ => none, listError := none }

/-- A `fetch` that serves three bytes at one URL, answers 404 at a second and fails elsewhere. -/
def sampleFetch (url : String) : Except String FetchResponse :=
  if url = "https://example.com/firmware.bin" then .ok ⟨200, .ok [1, 2, 3]⟩
  else if url = "https://example.com/missing.bin" then .ok ⟨404, .ok []⟩
  else .error "network error"

/-- A release with one asset, served by `sampleFetch`. -/
def sampleRelease : Release :=
  { tag_name := "v2.0.0"
    name := some "Release 2"
    body := none
    published_at := some "2024-01-01T00:00:00Z"
    html_url := some "https://example.com/v2.0.0"
    assets := [⟨"firmware.bin", "https://example.com/firmware.bin"⟩] }

/-- A release whose second asset answers 404 and whose third is never reached. -/
def brokenRelease : Release :=
  { tag_name := "v3.0.0"
    name := none
    body := none
    published_at := none
    html_url := none
    assets :=
      [⟨"firmware.bin", "https://example.com/firmware.bin"⟩,
        ⟨"missing.bin", "https://example.com/missing.bin"⟩,
        ⟨"late.bin", "https://example.com/firmware.bin"⟩] }

/-- A parser of request bodies that knows four bodies and rejects the others. -/
def sampleParse (body : String) : Except String Payload :=
  if body = "published v2.0.0" then .ok ⟨some "published", some sampleRelease⟩
  else if body = "published v3.0.0" then .ok ⟨some "published", some brokenRelease⟩
  else if body = "edited v2.0.0" then .ok ⟨some "edited", some sampleRelease⟩
  else if body = "ping" then .ok ⟨none, none⟩
  else .error "Unexpected token"

/-- A release with an empty tag and no assets. -/
def emptyTagRelease : Release :=
  { tag_name := "", name := none, body := none, published_at := none, html_url := none,
    assets := [] }

/-- The `put` calls among the calls made, in order, each as the key and the value written. -/
def puts : List Effect → List (String × Value)
  | [] => []
  | .put key value :: rest => (key, value) :: puts rest
  | .fetch _ :: rest => puts rest

/-- The URLs of the `fetch` calls among the calls made, in order. -/
def fetches : List Effect → List String
  | [] => []
  | .fetch url :: rest => url :: fetches rest
  | .put _ _ :: rest => fetches rest

/-- The download of `asset` answers with a success status and its content can be read. -/
def Downloadable (fetch : String → Except String FetchResponse) (asset : Asset) : Prop :=
  ∃ status content, fetch asset.browser_download_url = .ok ⟨status, .ok content⟩ ∧
    200 ≤ status ∧ status ≤ 299

/-- The bytes that the download of `url` gives (empty when there is no content to read). -/
def downloaded (fetch : String → Except String FetchResponse) (url : String) : Bytes :=
  match fetch url with
  | .ok ⟨_, .ok content⟩ => content
  | _ => []

/-- The entry `{name, size, kvKey}` of an asset of the release tagged `tagName`. -/
def assetEntry (fetch : String → Except String FetchResponse) (tagName : String)
    (asset : Asset) : AssetEntry :=
  { name := asset.name
    size := (downloaded fetch asset.browser_download_url).length
    kvKey := assetKey tagName asset.name }

/-- The `put` of the download of an asset: its key and the bytes written. -/
def assetPut (fetch : String → Except String FetchResponse) (tagName : String)
    (asset : Asset) : String × Value :=
  (assetKey tagName asset.name, .buffer (downloaded fetch asset.browser_download_url))

/-- The record written under `release:<tag>` for a release whose assets are all downloaded. -/
def releaseRecord (fetch : String → Except String FetchResponse) (release : Release) :
    ReleaseData :=
  { tag_name := release.tag_name
    name := release.name
    body := release.body
    published_at := release.published_at
    assets := release.assets.map (assetEntry fetch release.tag_name)
    html_url := release.html_url }

/-- The entries after a list of writes, applied in order. -/
def putAll (writes : List (String × Value)) (entries : List (String × Value)) :
    List (String × Value) :=
  writes.foldl (fun es w => putEntry w.1 w.2 es) entries

/-- The calls made for a list of assets that are all downloaded: for each one, in order, the
`fetch` of its URL and the `put` of its bytes. -/
def downloadCalls (fetch : String → Except String FetchResponse) (tagName : String)
    (assets : List Asset) : List Effect :=
  assets.flatMap (fun asset =>
    [.fetch asset.browser_download_url,
      .put (assetKey tagName asset.name) (.buffer (downloaded fetch asset.browser_download_url))])

/-- The store states that the worker can reach from the empty namespace: each step is one call
of `handleGitHubWebhook`, on any request, with any behaviour of the parser, of `fetch` and of
the namespace (which calls throw), and any secret. -/
inductive Reachable : List (String × Value) → Prop where
  | empty : Reachable []
  | webhook (entries : List (String × Value)) (getError putError : String → Option String)
      (listError : Option String) (secret : Option String)
      (parse : String → Except String Payload) (fetch : String → Except String FetchResponse)
      (request : Request) :
      Reachable entries →
      Reachable
        (handleGitHubWebhook parse fetch request
          ⟨⟨entries, getError, putError, listError⟩, secret⟩).2.1.RELEASES.entries

/-- The key has the form `asset:<tag>:<name>`. -/
def IsAssetKey (key : String) : Prop :=
  ∃ tagName assetName, key = assetKey tagName assetName

/-- The entry of a record is backed by the store: its `kvKey` is an asset key under which the
store holds a buffer. -/
def Stored (entries : List (String × Value)) (e : AssetEntry) : Prop :=
  IsAssetKey e.kvKey ∧ ∃ content, lookupEntry e.kvKey entries = some (.buffer content)

/-- Every record in the store lists only entries that are backed by the store. -/
def RecordsBacked (entries : List (String × Value)) : Prop :=
  ∀ key r, lookupEntry key entries = some (.json r) → ∀ e ∈ r.assets, Stored entries e

theorem lookupEntry_putEntry_same (key : String) (value : Value) (entries : List (String × Value)) :
    lookupEntry key (putEntry key value entries) = some value := by
  induction entries with
  | nil => simp [putEntry, lookupEntry]
  | cons e rest ih =>
    obtain ⟨k, v⟩ := e
    by_cases h : k = key
    · simp [putEntry, lookupEntry, h]
    · simp [putEntry, lookupEntry, h, ih]

theorem lookupEntry_putEntry_ne {key other : String} (h : other ≠ key) (value : Value)
    (entries : List (String × Value)) :
    lookupEntry other (putEntry key value entries) = lookupEntry other entries := by
  induction entries with
  | nil => simp [putEntry, lookupEntry, Ne.symm h]
  | cons e rest ih =>
    obtain ⟨k, v⟩ := e
    by_cases hk : k = key
    · subst hk
      simp [putEntry, lookupEntry, Ne.symm h]
    · by_cases ho : k = other
      · subst ho
        simp [putEntry, lookupEntry, hk]
      · simp [putEntry, lookupEntry, hk, ho, ih]

theorem assetKey_ne_releaseKey (tagName assetName tag : String) :
    assetKey tagName assetName ≠ releaseKey tag := by
  intro h
  have := congrArg String.data h
  simp [assetKey, releaseKey, String.data_append] at this

theorem assetKey_ne_latest (tagName assetName : String) : assetKey tagName assetName ≠ "latest" := by
  intro h
  have := congrArg String.data h
  simp [assetKey, String.data_append] at this

theorem releaseKey_ne_latest (tag : String) : releaseKey tag ≠ "latest" := by
  intro h
  have := congrArg String.data h
  simp [releaseKey, String.data_append] at this

theorem releaseKey_injective {t u : String} (h : releaseKey t = releaseKey u) : t = u := by
  have := congrArg String.data h
  simp [releaseKey, String.data_append] at this
  exact String.ext this

theorem startsWith_assetKey (tagName assetName : String) :
    startsWith (assetKey tagName assetName) "release:" = false := by
  simp [startsWith, assetKey, String.data_append, List.isPrefixOf]

theorem startsWith_latest : startsWith "latest" "release:" = false := by
  decide

theorem puts_append (xs ys : List Effect) : puts (xs ++ ys) = puts xs ++ puts ys := by
  induction xs with
  | nil => rfl
  | cons e rest ih => cases e <;> simp [puts, ih]

theorem fetches_append (xs ys : List Effect) : fetches (xs ++ ys) = fetches xs ++ fetches ys := by
  induction xs with
  | nil => rfl
  | cons e rest ih => cases e <;> simp [fetches, ih]

theorem puts_downloadCalls (fetch : String → Except String FetchResponse) (tagName : String)
    (assets : List Asset) :
    puts (downloadCalls fetch tagName assets) = assets.map (assetPut fetch tagName) := by
  induction assets with
  | nil => rfl
  | cons a rest ih =>
    have h : downloadCalls fetch tagName (a :: rest) =
        [.fetch a.browser_download_url,
          .put (assetKey tagName a.name) (.buffer (downloaded fetch a.browser_download_url))] ++
          downloadCalls fetch tagName rest := by
      simp [downloadCalls]
    rw [h, puts_append, ih]
    simp [puts, assetPut]

theorem fetches_downloadCalls (fetch : String → Except String FetchResponse) (tagName : String)
    (assets : List Asset) :
    fetches (downloadCalls fetch tagName assets) =
      assets.map (fun asset => asset.browser_download_url) := by
  induction assets with
  | nil => rfl
  | cons a rest ih =>
    have h : downloadCalls fetch tagName (a :: rest) =
        [.fetch a.browser_download_url,
          .put (assetKey tagName a.name) (.buffer (downloaded fetch a.browser_download_url))] ++
          downloadCalls fetch tagName rest := by
      simp [downloadCalls]
    rw [h, fetches_append, ih]
    simp [fetches]

/-- The loop over assets that are all downloaded and stored, followed by further assets: the
entries and the writes of the first ones are done, and the loop goes on with the rest. -/
theorem syncAssets_append (fetch : String → Except String FetchResponse) (tagName : String)
    (pre rest : List Asset) (assets : List AssetEntry) (kv : KVNamespace)
    (hfetch : ∀ a ∈ pre, Downloadable fetch a)
    (hput : ∀ a ∈ pre, kv.putError (assetKey tagName a.name) = none) :
    syncAssets fetch tagName (pre ++ rest) assets kv =
      ((syncAssets fetch tagName rest (assets ++ pre.map (assetEntry fetch tagName))
          { kv with entries := putAll (pre.map (assetPut fetch tagName)) kv.entries }).1,
        (syncAssets fetch tagName rest (assets ++ pre.map (assetEntry fetch tagName))
          { kv with entries := putAll (pre.map (assetPut fetch tagName)) kv.entries }).2.1,
        downloadCalls fetch tagName pre ++
          (syncAssets fetch tagName rest (assets ++ pre.map (assetEntry fetch tagName))
            { kv with entries := putAll (pre.map (assetPut fetch tagName)) kv.entries }).2.2) := by
  induction pre generalizing assets kv with
  | nil => simp [putAll, downloadCalls]
  | cons a pre ih =>
    obtain ⟨status, content, hf, hlo, hhi⟩ := hfetch a (List.mem_cons_self a pre)
    have hp := hput a (List.mem_cons_self a pre)
    have hd : downloaded fetch a.browser_download_url = content := by
      simp [downloaded, hf]
    have hok : FetchResponse.ok ⟨status, .ok content⟩ = true := by
      simp [FetchResponse.ok, hlo, hhi]
    have step := ih (assets ++ [assetEntry fetch tagName a])
      { kv with entries := putEntry (assetKey tagName a.name) (.buffer content) kv.entries }
      (fun b hb => hfetch b (List.mem_cons_of_mem a hb))
      (fun b hb => hput b (List.mem_cons_of_mem a hb))
    simp only [List.cons_append, syncAssets, hf, hok, KVNamespace.put, hp]
    simp only [assetEntry, hd] at step
    simp only [Bool.not_true, Bool.false_eq_true, if_false, List.append_eq]
    rw [step]
    simp [putAll, assetPut, assetEntry, hd, downloadCalls, List.append_assoc]

/-! ## A sync whose downloads all succeed -/

/-- The whole outcome of `syncReleaseToKV` when every download succeeds and no `put` throws. -/
theorem syncReleaseToKV_eq_of_downloadable (fetch : String → Except String FetchResponse)
    (release : Release) (kv : KVNamespace)
    (hfetch : ∀ a ∈ release.assets, Downloadable fetch a)
    (hput : ∀ key, kv.putError key = none) :
    syncReleaseToKV fetch release kv =
      (.success release.assets.length release.tag_name,
        { kv with
          entries :=
            (putEntry "latest" (.text release.tag_name)
              (putEntry (releaseKey release.tag_name) (.json (releaseRecord fetch release))
                (putAll (release.assets.map (assetPut fetch release.tag_name)) kv.entries))) },
        downloadCalls fetch release.tag_name release.assets ++
          [.put (releaseKey release.tag_name) (.json (releaseRecord fetch release)),
            .put "latest" (.text release.tag_name)]) := by
  have h := syncAssets_append fetch release.tag_name release.assets [] [] kv hfetch
    (fun a _ => hput _)
  simp only [List.append_nil, List.nil_append, syncAssets] at h
  simp [syncReleaseToKV, h, KVNamespace.put, hput, releaseRecord]

/-- C1: when every download of the release answers with a success status and no `put` throws,
`syncReleaseToKV` makes exactly N+2 `put` calls, in this order: for each asset, in input order,
the key `asset:<tag>:<name>` with the downloaded bytes, then `release:<tag>` with the record
whose `assets` has one entry per asset in input order (name, byte length of the download,
kvKey), then `latest` with the tag; and it returns success with `assets = N`, `version = tag`. -/
theorem syncReleaseToKV_puts_of_downloadable (fetch : String → Except String FetchResponse)
    (release : Release) (kv : KVNamespace)
    (hfetch : ∀ a ∈ release.assets, Downloadable fetch a)
    (hput : ∀ key, kv.putError key = none) :
    (syncReleaseToKV fetch release kv).1 =
        .success release.assets.length release.tag_name ∧
      puts (syncReleaseToKV fetch release kv).2.2 =
        release.assets.map (fun a =>
            (assetKey release.tag_name a.name,
              Value.buffer (downloaded fetch a.browser_download_url))) ++
          [(releaseKey release.tag_name,
              .json
                { tag_name := release.tag_name
                  name := release.name
                  body := release.body
                  published_at := release.published_at
                  assets := release.assets.map (fun a =>
                    { name := a.name
                      size := (downloaded fetch a.browser_download_url).length
                      kvKey := assetKey release.tag_name a.name })
                  html_url := release.html_url }),
            ("latest", .text release.tag_name)] ∧
      (puts (syncReleaseToKV fetch release kv).2.2).length = release.assets.length + 2 ∧
      (syncReleaseToKV fetch release kv).2.1.entries =
        putAll (puts (syncReleaseToKV fetch release kv).2.2) kv.entries := by
  rw [syncReleaseToKV_eq_of_downloadable fetch release kv hfetch hput]
  refine ⟨rfl, ?_, ?_, ?_⟩
  · simp only [puts_append, puts_downloadCalls, puts]
    rfl
  · simp [puts_append, puts_downloadCalls, puts]
  · simp [puts_append, puts_downloadCalls, puts, putAll, List.foldl_append]

theorem syncReleaseToKV_puts_of_downloadable_witness :
    (∀ a ∈ sampleRelease.assets, Downloadable sampleFetch a) ∧
      (syncReleaseToKV sampleFetch sampleRelease emptyStore).1 = .success 1 "v2.0.0" ∧
      puts (syncReleaseToKV sampleFetch sampleRelease emptyStore).2.2 =
        [("asset:v2.0.0:firmware.bin", .buffer [1, 2, 3]),
          ("release:v2.0.0",
            .json
              { tag_name := "v2.0.0"
                name := some "Release 2"
                body := none
                published_at := some "2024-01-01T00:00:00Z"
                assets := [⟨"firmware.bin", 3, "asset:v2.0.0:firmware.bin"⟩]
                html_url := some "https://example.com/v2.0.0" }),
          ("latest", .text "v2.0.0")] :=
  have hfetch : ∀ a ∈ sampleRelease.assets, Downloadable sampleFetch a := by
    intro a ha
    simp only [sampleRelease, List.mem_singleton] at ha
    subst ha
    exact ⟨200, [1, 2, 3], rfl, by decide, by decide⟩
  have h := syncReleaseToKV_puts_of_downloadable sampleFetch sampleRelease emptyStore hfetch
    (fun _ => rfl)
  ⟨hfetch, h.1, h.2.1.trans (by decide)⟩

/-! ## A sync in which a download fails -/

theorem lookupEntry_putAll_of_ne (key : String) (writes : List (String × Value))
    (entries : List (String × Value)) (h : ∀ w ∈ writes, key ≠ w.1) :
    lookupEntry key (putAll writes entries) = lookupEntry key entries := by
  induction writes generalizing entries with
  | nil => rfl
  | cons w rest ih =>
    have hrest := ih (putEntry w.1 w.2 entries) (fun x hx => h x (List.mem_cons_of_mem w hx))
    have hw := lookupEntry_putEntry_ne (h w (List.mem_cons_self w rest)) w.2 entries
    simpa [putAll, hw] using hrest

/-- The outcome of `syncReleaseToKV` when the assets before `failing` are downloaded and stored
and the download of `failing` answers with a status outside 200-299. -/
theorem syncReleaseToKV_eq_of_failing (fetch : String → Except String FetchResponse)
    (release : Release) (kv : KVNamespace) (pre post : List Asset) (failing : Asset)
    (status : Nat) (content : Except String Bytes)
    (hassets : release.assets = pre ++ failing :: post)
    (hpre : ∀ a ∈ pre, Downloadable fetch a)
    (hput : ∀ a ∈ pre, kv.putError (assetKey release.tag_name a.name) = none)
    (hfail : fetch failing.browser_download_url = .ok ⟨status, content⟩)
    (hstatus : ¬ (200 ≤ status ∧ status ≤ 299)) :
    syncReleaseToKV fetch release kv =
      (.failure ("Failed to download " ++ failing.name ++ ": " ++ toString status),
        { kv with entries := putAll (pre.map (assetPut fetch release.tag_name)) kv.entries },
        downloadCalls fetch release.tag_name pre ++ [.fetch failing.browser_download_url]) := by
  have h := syncAssets_append fetch release.tag_name pre (failing :: post) [] kv hpre hput
  have hok : FetchResponse.ok ⟨status, content⟩ = false := by
    simpa [FetchResponse.ok] using hstatus
  simp only [syncAssets, hfail, hok, List.nil_append] at h
  simp [syncReleaseToKV, hassets, h]

/-- C2: for a published release in which the assets before `failing` are downloaded and stored
and the download of `failing` answers with a non-success status, `syncReleaseToKV` returns the
failure `Failed to download <name>: <status>`, the webhook answers 500 with that error, the
`put` calls are exactly those of the assets before `failing`, the `fetch` calls stop at
`failing`, and `release:<tag>` and `latest` hold what they held before. -/
theorem handleGitHubWebhook_of_failing_download (parse : String → Except String Payload)
    (fetch : String → Except String FetchResponse) (request : Request) (env : Env)
    (release : Release) (pre post : List Asset) (failing : Asset)
    (status : Nat) (content : Except String Bytes)
    (hparse : parse request.body = .ok ⟨some "published", some release⟩)
    (hassets : release.assets = pre ++ failing :: post)
    (hpre : ∀ a ∈ pre, Downloadable fetch a)
    (hput : ∀ a ∈ pre, env.RELEASES.putError (assetKey release.tag_name a.name) = none)
    (hfail : fetch failing.browser_download_url = .ok ⟨status, content⟩)
    (hstatus : ¬ (200 ≤ status ∧ status ≤ 299)) :
    (syncReleaseToKV fetch release env.RELEASES).1 =
        .failure ("Failed to download " ++ failing.name ++ ": " ++ toString status) ∧
      (handleGitHubWebhook parse fetch request env).1 =
        jsonResponse
          (.syncFailure ("Failed to download " ++ failing.name ++ ": " ++ toString status)) 500 ∧
      puts (handleGitHubWebhook parse fetch request env).2.2 =
        pre.map (fun a =>
          (assetKey release.tag_name a.name,
            Value.buffer (downloaded fetch a.browser_download_url))) ∧
      fetches (handleGitHubWebhook parse fetch request env).2.2 =
        (pre ++ [failing]).map (fun a => a.browser_download_url) ∧
      lookupEntry (releaseKey release.tag_name)
          (handleGitHubWebhook parse fetch request env).2.1.RELEASES.entries =
        lookupEntry (releaseKey release.tag_name) env.RELEASES.entries ∧
      lookupEntry "latest" (handleGitHubWebhook parse fetch request env).2.1.RELEASES.entries =
        lookupEntry "latest" env.RELEASES.entries := by
  have hsync := syncReleaseToKV_eq_of_failing fetch release env.RELEASES pre post failing status
    content hassets hpre hput hfail hstatus
  have hweb : handleGitHubWebhook parse fetch request env =
      (jsonResponse
          (.syncFailure ("Failed to download " ++ failing.name ++ ": " ++ toString status)) 500,
        { env with
          RELEASES :=
            { env.RELEASES with
              entries :=
                putAll (pre.map (assetPut fetch release.tag_name)) env.RELEASES.entries } },
        downloadCalls fetch release.tag_name pre ++ [.fetch failing.browser_download_url]) := by
    simp [handleGitHubWebhook, hparse, hsync]
  rw [hsync, hweb]
  refine ⟨rfl, rfl, ?_, ?_, ?_, ?_⟩
  · simp only [puts_append, puts_downloadCalls, puts, List.append_nil]
    rfl
  · simp [fetches_append, fetches_downloadCalls, fetches]
  · apply lookupEntry_putAll_of_ne
    intro w hw
    obtain ⟨a, _, rfl⟩ := List.mem_map.mp hw
    exact (assetKey_ne_releaseKey _ _ _).symm
  · apply lookupEntry_putAll_of_ne
    intro w hw
    obtain ⟨a, _, rfl⟩ := List.mem_map.mp hw
    exact (assetKey_ne_latest _ _).symm

theorem handleGitHubWebhook_of_failing_download_witness :
    (syncReleaseToKV sampleFetch brokenRelease emptyStore).1 =
        .failure "Failed to download missing.bin: 404" ∧
      (handleGitHubWebhook sampleParse sampleFetch ⟨none, "published v3.0.0"⟩
          ⟨emptyStore, none⟩).1 =
        jsonResponse (.syncFailure "Failed to download missing.bin: 404") 500 ∧
      puts (handleGitHubWebhook sampleParse sampleFetch ⟨none, "published v3.0.0"⟩
          ⟨emptyStore, none⟩).2.2 =
        [("asset:v3.0.0:firmware.bin", .buffer [1, 2, 3])] ∧
      fetches (handleGitHubWebhook sampleParse sampleFetch ⟨none, "published v3.0.0"⟩
          ⟨emptyStore, none⟩).2.2 =
        ["https://example.com/firmware.bin", "https://example.com/missing.bin"] :=
  have h := handleGitHubWebhook_of_failing_download sampleParse sampleFetch
    ⟨none, "published v3.0.0"⟩ ⟨emptyStore, none⟩ brokenRelease
    [⟨"firmware.bin", "https://example.com/firmware.bin"⟩]
    [⟨"late.bin", "https://example.com/firmware.bin"⟩]
    ⟨"missing.bin", "https://example.com/missing.bin"⟩ 404 (.ok []) rfl rfl
    (by
      intro a ha
      simp only [List.mem_singleton] at ha
      subst ha
      exact ⟨200, [1, 2, 3], rfl, by decide, by decide⟩)
    (fun _ _ => rfl) rfl (by decide)
  ⟨h.1.trans (by decide), h.2.1.trans (by decide), h.2.2.1.trans (by decide),
    h.2.2.2.1.trans (by decide)⟩

/-! ## Events that are not processed, and the signature -/

/-- C9: when the body parses to a payload whose action is not `published` or that carries no
release, `handleGitHubWebhook` makes no `fetch` and no `put` call, leaves the bindings as they
are and answers `Event not processed` with status 200. -/
theorem handleGitHubWebhook_not_processed (parse : String → Except String Payload)
    (fetch : String → Except String FetchResponse) (request : Request) (env : Env)
    (payload : Payload) (hparse : parse request.body = .ok payload)
    (h : payload.action ≠ some "published" ∨ payload.release = none) :
    handleGitHubWebhook parse fetch request env =
      (⟨.text "Event not processed", 200, none⟩, env, []) := by
  unfold handleGitHubWebhook
  simp only [hparse]
  by_cases ha : payload.action = some "published"
  · have hr : payload.release = none := h.resolve_left (fun hne => hne ha)
    simp [ha, hr, eventNotProcessed]
  · simp [ha, eventNotProcessed]

theorem handleGitHubWebhook_not_processed_witness :
    handleGitHubWebhook sampleParse sampleFetch ⟨none, "edited v2.0.0"⟩ ⟨emptyStore, none⟩ =
        (⟨.text "Event not processed", 200, none⟩, ⟨emptyStore, none⟩, []) ∧
      handleGitHubWebhook sampleParse sampleFetch ⟨none, "ping"⟩ ⟨emptyStore, none⟩ =
        (⟨.text "Event not processed", 200, none⟩, ⟨emptyStore, none⟩, []) :=
  ⟨handleGitHubWebhook_not_processed sampleParse sampleFetch ⟨none, "edited v2.0.0"⟩
      ⟨emptyStore, none⟩ ⟨some "edited", some sampleRelease⟩ rfl (Or.inl (by decide)),
    handleGitHubWebhook_not_processed sampleParse sampleFetch ⟨none, "ping"⟩
      ⟨emptyStore, none⟩ ⟨none, none⟩ rfl (Or.inr rfl)⟩

/-- C4 (the code at the failing input): with a secret configured and no signature header,
`verifyGitHubSignature` would answer false, yet `handleGitHubWebhook` processes the
notification: it answers 200 and makes the `fetch` and the three `put` calls of the sync. The
response and the calls are the same for every signature header. -/
theorem handleGitHubWebhook_ignores_signature :
    (∀ hmacSha256, verifyGitHubSignature hmacSha256 "published v2.0.0" none (some "s3cret") =
        false) ∧
      (handleGitHubWebhook sampleParse sampleFetch ⟨none, "published v2.0.0"⟩
          ⟨emptyStore, some "s3cret"⟩).1 =
        jsonResponse (.syncSuccess "Release v2.0.0 synced successfully" 1) 200 ∧
      fetches (handleGitHubWebhook sampleParse sampleFetch ⟨none, "published v2.0.0"⟩
          ⟨emptyStore, some "s3cret"⟩).2.2 = ["https://example.com/firmware.bin"] ∧
      (puts (handleGitHubWebhook sampleParse sampleFetch ⟨none, "published v2.0.0"⟩
          ⟨emptyStore, some "s3cret"⟩).2.2).map Prod.fst =
        ["asset:v2.0.0:firmware.bin", "release:v2.0.0", "latest"] ∧
      ∀ parse fetch signature signature' body env,
        handleGitHubWebhook parse fetch ⟨signature, body⟩ env =
          handleGitHubWebhook parse fetch ⟨signature', body⟩ env := by
  refine ⟨fun _ => rfl, by decide, by decide, by decide, ?_⟩
  intro parse fetch signature signature' body env
  rfl

/-! ## The records of a reachable store are backed by their assets -/

theorem isAssetKey_ne_releaseKey {key : String} (h : IsAssetKey key) (tag : String) :
    key ≠ releaseKey tag := by
  obtain ⟨t, n, rfl⟩ := h
  exact assetKey_ne_releaseKey t n tag

theorem isAssetKey_ne_latest {key : String} (h : IsAssetKey key) : key ≠ "latest" := by
  obtain ⟨t, n, rfl⟩ := h
  exact assetKey_ne_latest t n

/-- Writing a buffer keeps every backed entry backed. -/
theorem stored_putEntry_buffer (entries : List (String × Value)) (key : String) (content : Bytes)
    (e : AssetEntry) (h : Stored entries e) :
    Stored (putEntry key (.buffer content) entries) e := by
  obtain ⟨hk, c, hc⟩ := h
  refine ⟨hk, ?_⟩
  by_cases heq : e.kvKey = key
  · exact ⟨content, by rw [heq, lookupEntry_putEntry_same]⟩
  · exact ⟨c, by rw [lookupEntry_putEntry_ne heq, hc]⟩

/-- Writing under a key that is not an asset key keeps every backed entry backed. -/
theorem stored_putEntry_other (entries : List (String × Value)) (key : String) (value : Value)
    (hkey : ¬ IsAssetKey key) (e : AssetEntry) (h : Stored entries e) :
    Stored (putEntry key value entries) e := by
  obtain ⟨hk, c, hc⟩ := h
  refine ⟨hk, c, ?_⟩
  have hne : e.kvKey ≠ key := fun heq => hkey (heq ▸ hk)
  rw [lookupEntry_putEntry_ne hne, hc]

theorem recordsBacked_putEntry_buffer (entries : List (String × Value)) (key : String)
    (content : Bytes) (h : RecordsBacked entries) :
    RecordsBacked (putEntry key (.buffer content) entries) := by
  intro k r hr e he
  by_cases heq : k = key
  · rw [heq, lookupEntry_putEntry_same] at hr
    cases hr
  · rw [lookupEntry_putEntry_ne heq] at hr
    exact stored_putEntry_buffer entries key content e (h k r hr e he)

theorem recordsBacked_putEntry_json (entries : List (String × Value)) (key : String)
    (record : ReleaseData) (hkey : ¬ IsAssetKey key) (h : RecordsBacked entries)
    (hrecord : ∀ e ∈ record.assets, Stored entries e) :
    RecordsBacked (putEntry key (.json record) entries) := by
  intro k r hr e he
  by_cases heq : k = key
  · rw [heq, lookupEntry_putEntry_same] at hr
    cases hr
    exact stored_putEntry_other entries key _ hkey e (hrecord e he)
  · rw [lookupEntry_putEntry_ne heq] at hr
    exact stored_putEntry_other entries key _ hkey e (h k r hr e he)

theorem recordsBacked_putEntry_text (entries : List (String × Value)) (key s : String)
    (hkey : ¬ IsAssetKey key) (h : RecordsBacked entries) :
    RecordsBacked (putEntry key (.text s) entries) := by
  intro k r hr e he
  by_cases heq : k = key
  · rw [heq, lookupEntry_putEntry_same] at hr
    cases hr
  · rw [lookupEntry_putEntry_ne heq] at hr
    exact stored_putEntry_other entries key _ hkey e (h k r hr e he)

/-- The download loop, whatever the downloads and the writes do, keeps the records backed, and
when it ends without an error every entry of the array it built is backed. -/
theorem syncAssets_backed (fetch : String → Except String FetchResponse) (tagName : String)
    (todo : List Asset) (assets : List AssetEntry) (kv : KVNamespace)
    (hkv : RecordsBacked kv.entries) (hassets : ∀ e ∈ assets, Stored kv.entries e) :
    RecordsBacked (syncAssets fetch tagName todo assets kv).2.1.entries ∧
      ∀ out, (syncAssets fetch tagName todo assets kv).1 = .ok out →
        ∀ e ∈ out, Stored (syncAssets fetch tagName todo assets kv).2.1.entries e := by
  induction todo generalizing assets kv with
  | nil =>
    refine ⟨hkv, ?_⟩
    intro out hout e he
    simp only [syncAssets, Except.ok.injEq] at hout
    subst hout
    exact hassets e he
  | cons a rest ih =>
    simp only [syncAssets]
    cases hf : fetch a.browser_download_url with
    | error err => exact ⟨hkv, fun out hout => by simp at hout⟩
    | ok response =>
      by_cases hok : response.ok = true
      · simp only [hok, Bool.not_true, Bool.false_eq_true, if_false]
        cases hb : response.arrayBuffer with
        | error err => exact ⟨hkv, fun out hout => by simp at hout⟩
        | ok content =>
          cases hp : kv.putError (assetKey tagName a.name) with
          | some err =>
            simp only [KVNamespace.put, hp]
            exact ⟨hkv, fun out hout => by simp at hout⟩
          | none =>
            simp only [KVNamespace.put, hp]
            apply ih
            · exact recordsBacked_putEntry_buffer kv.entries _ content hkv
            · intro e he
              rcases List.mem_append.mp he with h | h
              · exact stored_putEntry_buffer kv.entries _ content e (hassets e h)
              · simp only [List.mem_singleton] at h
                subst h
                exact ⟨⟨tagName, a.name, rfl⟩, content, lookupEntry_putEntry_same _ _ _⟩
      · have hok' : response.ok = false := by simpa using hok
        simp only [hok', Bool.not_false, if_true]
        exact ⟨hkv, fun out hout => by simp at hout⟩

theorem not_isAssetKey_releaseKey (tag : String) : ¬ IsAssetKey (releaseKey tag) :=
  fun h => isAssetKey_ne_releaseKey h tag rfl

theorem not_isAssetKey_latest : ¬ IsAssetKey "latest" :=
  fun h => isAssetKey_ne_latest h rfl

/-- A sync, whatever its outcome, keeps the records backed. -/
theorem syncReleaseToKV_backed (fetch : String → Except String FetchResponse)
    (release : Release) (kv : KVNamespace) (hkv : RecordsBacked kv.entries) :
    RecordsBacked (syncReleaseToKV fetch release kv).2.1.entries := by
  have hloop := syncAssets_backed fetch release.tag_name release.assets [] kv hkv
    (fun e he => by simp at he)
  rcases hs : syncAssets fetch release.tag_name release.assets [] kv with ⟨r, kv1, effects⟩
  rw [hs] at hloop
  cases r with
  | error err =>
    simp only [syncReleaseToKV, hs]
    exact hloop.1
  | ok assets =>
    have hout := hloop.2 assets rfl
    cases hp1 : kv1.putError (releaseKey release.tag_name) with
    | some err =>
      simp only [syncReleaseToKV, hs, KVNamespace.put, hp1]
      exact hloop.1
    | none =>
      have h2 := recordsBacked_putEntry_json kv1.entries (releaseKey release.tag_name)
        { tag_name := release.tag_name
          name := release.name
          body := release.body
          published_at := release.published_at
          assets := assets
          html_url := release.html_url }
        (not_isAssetKey_releaseKey _) hloop.1 hout
      cases hp2 : kv1.putError "latest" with
      | some err =>
        simp only [syncReleaseToKV, hs, KVNamespace.put, hp1, hp2]
        exact h2
      | none =>
        simp only [syncReleaseToKV, hs, KVNamespace.put, hp1, hp2]
        exact recordsBacked_putEntry_text _ "latest" release.tag_name not_isAssetKey_latest h2

/-- A call of the webhook, whatever its outcome, keeps the records backed. -/
theorem handleGitHubWebhook_backed (parse : String → Except String Payload)
    (fetch : String → Except String FetchResponse) (request : Request) (env : Env)
    (henv : RecordsBacked env.RELEASES.entries) :
    RecordsBacked (handleGitHubWebhook parse fetch request env).2.1.RELEASES.entries := by
  cases hparse : parse request.body with
  | error err =>
    simp only [handleGitHubWebhook, hparse]
    exact henv
  | ok payload =>
    by_cases ha : payload.action = some "published"
    · cases hr : payload.release with
      | none =>
        simp only [handleGitHubWebhook, hparse, hr, ha, ne_eq, not_true_eq_false, decide_False]
        exact henv
      | some release =>
        have hsync := syncReleaseToKV_backed fetch release env.RELEASES henv
        rcases hs : syncReleaseToKV fetch release env.RELEASES with ⟨r, kv, effects⟩
        rw [hs] at hsync
        cases r <;>
          simp only [handleGitHubWebhook, hparse, hr, ha, ne_eq, not_true_eq_false,
            decide_False, hs] <;>
          exact hsync
    · simp only [handleGitHubWebhook, hparse, ha, ne_eq, not_false_eq_true, decide_True]
      exact henv

theorem recordsBacked_of_reachable {entries : List (String × Value)} (h : Reachable entries) :
    RecordsBacked entries := by
  induction h with
  | empty =>
    intro k r hr
    simp [lookupEntry] at hr
  | webhook entries getError putError listError secret parse fetch request _ ih =>
    exact handleGitHubWebhook_backed parse fetch request _ ih

/-- C3: in every store state that the worker reaches from the empty namespace by calls of the
webhook (successful, failing or not processed, the same tag synced again included), a record
stored under `release:<tag>` lists only entries whose `kvKey` holds a binary payload in the
store. -/
theorem reachable_release_assets_stored (entries : List (String × Value))
    (hreach : Reachable entries) (tag : String) (record : ReleaseData)
    (hrecord : lookupEntry (releaseKey tag) entries = some (.json record)) :
    ∀ e ∈ record.assets, ∃ content, lookupEntry e.kvKey entries = some (.buffer content) :=
  fun e he => (recordsBacked_of_reachable hreach (releaseKey tag) record hrecord e he).2

theorem reachable_release_assets_stored_witness :
    lookupEntry "release:v2.0.0"
        (handleGitHubWebhook sampleParse sampleFetch ⟨none, "published v2.0.0"⟩
          ⟨⟨[], fun _ => none, fun _ => none, none⟩, none⟩).2.1.RELEASES.entries =
        some (.json
          { tag_name := "v2.0.0"
            name := some "Release 2"
            body := none
            published_at := some "2024-01-01T00:00:00Z"
            assets := [⟨"firmware.bin", 3, "asset:v2.0.0:firmware.bin"⟩]
            html_url := some "https://example.com/v2.0.0" }) ∧
      ∃ content,
        lookupEntry "asset:v2.0.0:firmware.bin"
          (handleGitHubWebhook sampleParse sampleFetch ⟨none, "published v2.0.0"⟩
            ⟨⟨[], fun _ => none, fun _ => none, none⟩, none⟩).2.1.RELEASES.entries =
          some (.buffer content) :=
  ⟨by decide,
    reachable_release_assets_stored _
      (Reachable.webhook [] (fun _ => none) (fun _ => none) none none sampleParse sampleFetch
        ⟨none, "published v2.0.0"⟩ Reachable.empty)
      "v2.0.0"
      { tag_name := "v2.0.0"
        name := some "Release 2"
        body := none
        published_at := some "2024-01-01T00:00:00Z"
        assets := [⟨"firmware.bin", 3, "asset:v2.0.0:firmware.bin"⟩]
        html_url := some "https://example.com/v2.0.0" }
      (by decide) ⟨"firmware.bin", 3, "asset:v2.0.0:firmware.bin"⟩
      (List.mem_singleton.mpr rfl)⟩

/-! ## The paths of the read API -/

theorem split_latest : split "/api/releases/latest" '/' = ["", "api", "releases", "latest"] := by
  decide

/-- The store has no `latest` entry: `getLatestRelease` gives null, whatever the reads do. -/
theorem getLatestRelease_of_no_latest (env : Env)
    (h : lookupEntry "latest" env.RELEASES.entries = none) : getLatestRelease env = none := by
  unfold getLatestRelease KVNamespace.get
  cases hg : env.RELEASES.getError "latest" with
  | some e => rfl
  | none => simp [h, orNull]

/-- C6 (as stated, at the empty tag): the sync of a release whose tag is the empty string
succeeds and leaves the empty string under `latest`, and `getLatestRelease` then returns null,
not the record of that release. -/
theorem getLatestRelease_empty_tag_null :
    (syncReleaseToKV sampleFetch emptyTagRelease emptyStore).1 = .success 0 "" ∧
      lookupEntry "latest" (syncReleaseToKV sampleFetch emptyTagRelease emptyStore).2.1.entries =
        some (.text "") ∧
      (∃ record,
        lookupEntry (releaseKey "")
          (syncReleaseToKV sampleFetch emptyTagRelease emptyStore).2.1.entries =
          some (.json record)) ∧
      getLatestRelease ⟨(syncReleaseToKV sampleFetch emptyTagRelease emptyStore).2.1, none⟩ =
        none := by
  refine ⟨by decide, by decide, ⟨_, rfl⟩, by decide⟩

/-- C6 (amended): on a store without a `latest` entry `getLatestRelease` returns null and
`/api/releases/latest` answers 404; and after a successful sync of a release whose tag is not
the empty string, on a namespace whose reads do not throw, `latest` holds the tag,
`getLatestRelease` returns the record just written, whose `tag_name` is the tag, and
`/api/releases/latest` answers 200 with it, whatever the store held before. -/
theorem getLatestRelease_after_sync (localeCompare : String → String → Int)
    (fetch : String → Except String FetchResponse) (release : Release) (kv : KVNamespace)
    (secret : Option String)
    (hfetch : ∀ a ∈ release.assets, Downloadable fetch a)
    (hput : ∀ key, kv.putError key = none)
    (hget : ∀ key, kv.getError key = none)
    (htag : release.tag_name ≠ "") :
    (∀ env : Env, lookupEntry "latest" env.RELEASES.entries = none →
        getLatestRelease env = none ∧
          handleReleaseAPI localeCompare "/api/releases/latest" env =
            jsonResponse (.error "No releases found") 404) ∧
      (syncReleaseToKV fetch release kv).1 =
        .success release.assets.length release.tag_name ∧
      lookupEntry "latest" (syncReleaseToKV fetch release kv).2.1.entries =
        some (.text release.tag_name) ∧
      getLatestRelease ⟨(syncReleaseToKV fetch release kv).2.1, secret⟩ =
        some (releaseRecord fetch release) ∧
      (releaseRecord fetch release).tag_name = release.tag_name ∧
      handleReleaseAPI localeCompare "/api/releases/latest"
          ⟨(syncReleaseToKV fetch release kv).2.1, secret⟩ =
        jsonResponse (.release (releaseRecord fetch release)) 200 := by
  have hsync := syncReleaseToKV_eq_of_downloadable fetch release kv hfetch hput
  have hlatest : lookupEntry "latest" (syncReleaseToKV fetch release kv).2.1.entries =
      some (.text release.tag_name) := by
    rw [hsync]
    exact lookupEntry_putEntry_same _ _ _
  have hrecord : lookupEntry (releaseKey release.tag_name)
      (syncReleaseToKV fetch release kv).2.1.entries =
      some (.json (releaseRecord fetch release)) := by
    rw [hsync]
    show lookupEntry (releaseKey release.tag_name) (putEntry "latest" _ (putEntry _ _ _)) = _
    rw [lookupEntry_putEntry_ne (releaseKey_ne_latest _), lookupEntry_putEntry_same]
  have hgetError : (syncReleaseToKV fetch release kv).2.1.getError = kv.getError := by
    rw [hsync]
  have hnull : getLatestRelease ⟨(syncReleaseToKV fetch release kv).2.1, secret⟩ =
      some (releaseRecord fetch release) := by
    simp [getLatestRelease, KVNamespace.get, KVNamespace.getJson, hgetError, hget, hlatest,
      hrecord, orNull, htag]
  refine ⟨?_, by rw [hsync], hlatest, hnull, rfl, ?_⟩
  · intro env henv
    have h := getLatestRelease_of_no_latest env henv
    refine ⟨h, ?_⟩
    simp [handleReleaseAPI, split_latest, h]
  · simp [handleReleaseAPI, split_latest, hnull]

theorem getLatestRelease_after_sync_witness :
    getLatestRelease ⟨emptyStore, none⟩ = none ∧
      handleReleaseAPI compareCodePoints "/api/releases/latest" ⟨emptyStore, none⟩ =
        jsonResponse (.error "No releases found") 404 ∧
      getLatestRelease ⟨(syncReleaseToKV sampleFetch sampleRelease emptyStore).2.1, none⟩ =
        some
          { tag_name := "v2.0.0"
            name := some "Release 2"
            body := none
            published_at := some "2024-01-01T00:00:00Z"
            assets := [⟨"firmware.bin", 3, "asset:v2.0.0:firmware.bin"⟩]
            html_url := some "https://example.com/v2.0.0" } :=
  have h := getLatestRelease_after_sync compareCodePoints sampleFetch sampleRelease emptyStore
    none
    (by
      intro a ha
      simp only [sampleRelease, List.mem_singleton] at ha
      subst ha
      exact ⟨200, [1, 2, 3], rfl, by decide, by decide⟩)
    (fun _ => rfl) (fun _ => rfl) (by decide)
  ⟨(h.1 ⟨emptyStore, none⟩ rfl).1, (h.1 ⟨emptyStore, none⟩ rfl).2,
    h.2.2.2.1.trans (by decide)⟩

/-! ## A release by its tag -/

end WeighMyBru
